import Mathlib

/-!
Verification development for the apple-mcp server's CORE subsystems:
the resilient backend loader (safe-mode fallback of src/index.ts, second
document, lines 1204 onwards) and the semi-structured record-text decoder
(the account-scoped mail parse block, src/index.ts lines 1822-1854 and its
duplicate in src/unnamed/part_000 lines 611-643).
-/

namespace AppleMcp

/-! ## Record Text Decoder

The source parses raw AppleScript output with
`asResult.match` of the global regex  backslash-brace, one-or-more
non-close-brace characters, backslash-close-brace  (one level of braces,
flat), then for each match strips the outer braces, splits on commas,
splits each fragment on colons keeping everything after the first colon as
the value, trims both sides, assembles a plain JS object with
last-write-wins assignment, keeps the candidate only when
`email.subject || email.sender` is truthy, and pushes a record with
defaults for the missing fields. -/

/-- JS `String.prototype.trim` on a character list: drop whitespace from both
ends. -/
def trimL (l : List Char) : List Char :=
  ((l.dropWhile Char.isWhitespace).reverse.dropWhile Char.isWhitespace).reverse

/-- Character-level scan implementing the source's global regex match of
one-level brace-delimited candidates.  It emits, left to right, the contents
of every maximal substring that starts at an opening brace, contains at least
one character none of which is a closing brace, and ends at the first
following closing brace; this is exactly what repeated matching of the
source's pattern produces (on a failed attempt the regex engine advances one
position, which coincides with this scan skipping the character).  The second
argument is `none` while scanning outside a candidate and `some acc` (the
reversed inner characters) inside one. -/
def scanCandidates : List Char → Option (List Char) → List (List Char)
  | [], _ => []
  | c :: rest, none =>
    if c = '{' then scanCandidates rest (some []) else scanCandidates rest none
  | c :: rest, some acc =>
    if c = '}' then
      if acc.isEmpty then scanCandidates rest none
      else acc.reverse :: scanCandidates rest none
    else scanCandidates rest (some (c :: acc))

/-- All brace-delimited candidates of the raw text, innards only, in input
order (the source's `asResult.match` list with the braces already stripped by
`match.substring(1, match.length - 1)`). -/
def extractCandidates (l : List Char) : List (List Char) :=
  scanCandidates l none

/-- JS `String.prototype.split` with a single-character separator. -/
def splitSep (sep : Char) : List Char → List (List Char)
  | [] => [[]]
  | c :: rest =>
    if c = sep then [] :: splitSep sep rest
    else
      match splitSep sep rest with
      | [] => [[c]]
      | h :: t => (c :: h) :: t

/-- One fragment of a candidate: the source computes
`parts = prop.split(c)` for the colon character and, when `parts.length >= 2`,
takes `parts[0].trim()` as key and `parts.slice(1).join(c).trim()` as value.
Splitting on every colon and re-joining the tail on colons reconstructs the
characters after the first colon, so the embedding splits at the first colon
directly; fragments without a colon yield `none` (discarded). -/
def parseProp (prop : List Char) : Option (String × String) :=
  match prop.dropWhile (fun c => decide (c ≠ ':')) with
  | ':' :: v =>
    some ((trimL (prop.takeWhile (fun c => decide (c ≠ ':')))).asString,
          (trimL v).asString)
  | _ => none

/-- JS object assignment `email[key] = value`: overwrite in place when the key
is already bound, append otherwise. -/
def objSet : List (String × String) → String → String → List (String × String)
  | [], k, v => [(k, v)]
  | (k1, v1) :: r, k, v =>
    if k1 = k then (k, v) :: r else (k1, v1) :: objSet r k v

/-- JS property read `email[key]` on the assembled record. -/
def getField : List (String × String) → String → Option String
  | [], _ => none
  | (k1, v1) :: r, k => if k1 = k then some v1 else getField r k

/-- The `props.forEach` loop assembling the fragments of one candidate into
one record. -/
def buildRecord (props : List (List Char)) : List (String × String) :=
  props.foldl (fun email prop =>
    match parseProp prop with
    | some (k, v) => objSet email k v
    | none => email) []

/-- One candidate (inner text) to its assembled record: comma split followed
by the `forEach`. -/
def recordOfCandidate (inner : List Char) : List (String × String) :=
  buildRecord (splitSep ',' inner)

/-- All assembled candidate records of a raw automation output, in input
order, before the identifying-field filter. -/
def decodeRecords (raw : String) : List (List (String × String)) :=
  (extractCandidates raw.toList).map recordOfCandidate

/-- JS truthiness of a possibly-absent string property: an absent property
(undefined) and the empty string are both falsy. -/
def truthy : Option String → Bool
  | none => false
  | some s => !(s == "")

/-- JS `x || d` for a possibly-absent string property. -/
def orDefault : Option String → String → String
  | none, d => d
  | some s, d => if s == "" then d else s

/-- The record pushed onto `emailData`. -/
structure Email where
  subject : String
  sender : String
  dateSent : String
  content : String
  isRead : Bool
  mailbox : String
deriving DecidableEq

/-- The `emailData.push` construction with its defaults; `now` stands for the
string `new Date().toString()` returned at parse time, `account` for
`args.account`. -/
def emailOf (account now : String) (r : List (String × String)) : Email :=
  { subject := orDefault (getField r "subject") "No subject"
    sender := orDefault (getField r "sender") "Unknown sender"
    dateSent := orDefault (getField r "date") now
    content := orDefault (getField r "content") "[Content not available]"
    isRead := false
    mailbox := account ++ " - " ++ orDefault (getField r "mailbox") "Unknown" }

/-- The identifying-field check `if (email.subject || email.sender)`. -/
def identifying (r : List (String × String)) : Bool :=
  truthy (getField r "subject") || truthy (getField r "sender")

/-- The whole account-scoped parse block: candidate extraction, per-candidate
record assembly, the identifying-field filter and the email construction, in
input order. -/
def decodeEmails (account now : String) (raw : String) : List Email :=
  (extractCandidates raw.toList).foldl (fun acc inner =>
    if identifying (recordOfCandidate inner) then
      acc ++ [emailOf account now (recordOfCandidate inner)]
    else acc) []

/-! ## Resilient backend loader (safe-mode fallback variant)

Shallow embedding of the startup protocol of the second document of
src/index.ts: the mutable globals `useEagerLoading`, `loadingTimeout`,
`safeModeFallback` and the five module variables; the 5-second
`setTimeout` callback (lines 1261-1275); `attemptEagerLoading`
(lines 1278-1333), which awaits the five dynamic imports in order and then
calls `initServer`; and `loadModule` (lines 1229-1258), the per-tool-call
lazy resolver.

Dynamic `import` is given the semantics mandated by the ECMAScript module
map (HostLoadImportedModule must return the same module record for the same
specifier, and a module is evaluated at most once, its success value or its
evaluation error being cached): the `registry` field below holds that map.
Each module therefore has a single evaluation outcome, supplied by the
environment `env`; `invocations` counts how often the module's initializer
(its top-level evaluation) actually runs.

The scheduling model is the source's cooperative single-threaded one: every
transition below is one synchronous continuation (code between two `await`
suspension points, or a timer callback), and transitions interleave
arbitrarily. -/

/-- The five backends of the safe-mode variant. -/
inductive ModuleName
  | contacts
  | notes
  | message
  | mail
  | reminders
deriving DecidableEq

/-- A module instance (opaque capability; its identity is all that matters). -/
abbrev Inst := Nat

/-- The single evaluation outcome of a module: its default export, or the
error its evaluation threw. -/
abbrev LoadOutcome := Except String Inst

deriving instance DecidableEq for Except

/-- One entry of the host's module map. -/
inductive RegState
  | notStarted
  | inFlight
  | settled (r : LoadOutcome)
deriving DecidableEq

/-- The 5-second `setTimeout` timer. -/
inductive TimerState
  | pending
  | fired
  | cleared
deriving DecidableEq

/-- Program counter of the `attemptEagerLoading` task: suspended awaiting the
i-th import of `eagerOrder`, or finished through the success or the catch
path. -/
inductive EagerPC
  | awaiting (i : Nat)
  | doneOk
  | doneErr
deriving DecidableEq

/-- Program counter of one `loadModule` (tool-call) task. -/
inductive TaskPC
  | start
  | awaitingImport
  | returned (r : LoadOutcome)
deriving DecidableEq

/-- One pending `loadModule` caller: the backend it resolves and where the
call stands. -/
structure TaskState where
  mod : ModuleName
  pc : TaskPC
deriving DecidableEq

/-- The process-wide mutable state of the loader protocol. -/
structure LoaderState where
  /-- The host module map (semantics of dynamic `import`). -/
  registry : ModuleName → RegState
  /-- The module-level variables `contacts`, `notes`, `message`, `mail`,
  `reminders` (the process-wide module cache). -/
  cache : ModuleName → Option Inst
  /-- How often each module's initializer (top-level evaluation) has run. -/
  invocations : ModuleName → Nat
  useEagerLoading : Bool
  safeModeFallback : Bool
  /-- Whether the variable `loadingTimeout` is non-null. -/
  loadingTimeoutVar : Bool
  timer : TimerState
  /-- How often `initServer()` has been called. -/
  initServerCalls : Nat
  eager : EagerPC
  tasks : List TaskState

/-- Pointwise update of a per-module map. -/
def upd {α : Type} (f : ModuleName → α) (m : ModuleName) (v : α) : ModuleName → α :=
  fun m1 => if m1 = m then v else f m1

/-- Calling `import(m)`: if the module map has no entry the evaluation starts
(exactly here the initializer is invoked); otherwise the existing in-flight or
settled entry is shared. -/
def registryStart (s : LoaderState) (m : ModuleName) : LoaderState :=
  if s.registry m = RegState.notStarted then
    { s with registry := upd s.registry m RegState.inFlight,
             invocations := upd s.invocations m (s.invocations m + 1) }
  else s

/-- The source's `if (loadingTimeout) clearTimeout(loadingTimeout);
loadingTimeout = null` block: clearing an already-fired timer is a no-op. -/
def clearTimer (s : LoaderState) : LoaderState :=
  if s.loadingTimeoutVar then
    { s with
      timer := if s.timer = TimerState.pending then TimerState.cleared else s.timer,
      loadingTimeoutVar := false }
  else s

/-- The order in which `attemptEagerLoading` awaits the imports. -/
def eagerOrder : List ModuleName :=
  [ModuleName.contacts, ModuleName.notes, ModuleName.message,
   ModuleName.mail, ModuleName.reminders]

/-- Scheduler events: each is one synchronous continuation of the source. -/
inductive Event
  | timerFires
  | moduleSettles (m : ModuleName)
  | eagerResume
  | taskBegin (i : Nat)
  | taskResume (i : Nat)

/-- One step of the interleaving semantics; `none` when the event is not
enabled in the given state.

  * `timerFires`: the 5-second callback (lines 1261-1275).  It sets safe
    mode, nulls the five module variables and calls `initServer()`.  It does
    not null `loadingTimeout` and it cannot cancel the in-flight imports.
  * `moduleSettles m`: the host finishes evaluating module `m` with the
    outcome `env m`.
  * `eagerResume`: the `attemptEagerLoading` continuation after the import
    it is awaiting has settled — assign the module variable and start the
    next import, or run the success epilogue (clear the timer, call
    `initServer()`), or run the catch block (clear the timer, set safe mode,
    null the module variables, call `initServer()`).
  * `taskBegin i`: the synchronous prefix of the i-th `loadModule` call —
    return the cached instance, or call `import` and suspend.
  * `taskResume i`: its continuation once the awaited import settled —
    assign the module variable and return the instance, or rethrow the
    error of the failed import. -/
def stepFn (env : ModuleName → LoadOutcome) : Event → LoaderState → Option LoaderState
  | Event.timerFires, s =>
    match s.timer with
    | TimerState.pending =>
      some { s with
             timer := TimerState.fired,
             useEagerLoading := false,
             safeModeFallback := true,
             cache := fun _ => none,
             initServerCalls := s.initServerCalls + 1 }
    | _ => none
  | Event.moduleSettles m, s =>
    match s.registry m with
    | RegState.inFlight =>
      some { s with registry := upd s.registry m (RegState.settled (env m)) }
    | _ => none
  | Event.eagerResume, s =>
    match s.eager with
    | EagerPC.awaiting i =>
      match eagerOrder.get? i with
      | none => none
      | some m =>
        match s.registry m with
        | RegState.settled (Except.ok v) =>
          match eagerOrder.get? (i + 1) with
          | some next =>
            some { registryStart { s with cache := upd s.cache m (some v) } next with
                   eager := EagerPC.awaiting (i + 1) }
          | none =>
            some { clearTimer { s with cache := upd s.cache m (some v) } with
                   initServerCalls := s.initServerCalls + 1,
                   eager := EagerPC.doneOk }
        | RegState.settled (Except.error _) =>
          some { clearTimer s with
                 useEagerLoading := false,
                 safeModeFallback := true,
                 cache := fun _ => none,
                 initServerCalls := s.initServerCalls + 1,
                 eager := EagerPC.doneErr }
        | _ => none
    | _ => none
  | Event.taskBegin i, s =>
    match s.tasks.get? i with
    | some t =>
      match t.pc with
      | TaskPC.start =>
        match s.cache t.mod with
        | some v =>
          some { s with tasks := s.tasks.set i ⟨t.mod, TaskPC.returned (Except.ok v)⟩ }
        | none =>
          some { registryStart s t.mod with
                 tasks := s.tasks.set i ⟨t.mod, TaskPC.awaitingImport⟩ }
      | _ => none
    | none => none
  | Event.taskResume i, s =>
    match s.tasks.get? i with
    | some t =>
      match t.pc with
      | TaskPC.awaitingImport =>
        match s.registry t.mod with
        | RegState.settled (Except.ok v) =>
          some { s with
                 cache := upd s.cache t.mod (some v),
                 tasks := s.tasks.set i ⟨t.mod, TaskPC.returned (Except.ok v)⟩ }
        | RegState.settled (Except.error e) =>
          some { s with tasks := s.tasks.set i ⟨t.mod, TaskPC.returned (Except.error e)⟩ }
        | _ => none
      | _ => none
    | none => none

/-- Run a list of scheduler events. -/
def runEvents (env : ModuleName → LoadOutcome) : List Event → LoaderState → Option LoaderState
  | [], s => some s
  | e :: es, s => (stepFn env e s).bind (runEvents env es)

/-- The state right after the top level of the module ran: the timer is set
(line 1261), `attemptEagerLoading()` was invoked (line 1333) and is suspended
on its first await with the contacts import in flight; `taskMods` lists the
backends of the pending `loadModule` callers. -/
def initState (taskMods : List ModuleName) : LoaderState :=
  { registry := upd (fun _ => RegState.notStarted) ModuleName.contacts RegState.inFlight,
    cache := fun _ => none,
    invocations := upd (fun _ => 0) ModuleName.contacts 1,
    useEagerLoading := true,
    safeModeFallback := false,
    loadingTimeoutVar := true,
    timer := TimerState.pending,
    initServerCalls := 0,
    eager := EagerPC.awaiting 0,
    tasks := taskMods.map (fun m => ⟨m, TaskPC.start⟩) }

/-- Invocation count of a possibly-failed run. -/
def invocOf (o : Option LoaderState) (m : ModuleName) : Nat :=
  match o with
  | some s => s.invocations m
  | none => 0

/-- Module-cache content of a possibly-failed run. -/
def cacheSnap (o : Option LoaderState) (m : ModuleName) : Option (Option Inst) :=
  match o with
  | some s => some (s.cache m)
  | none => none

/-- Number of `initServer()` calls of a possibly-failed run. -/
def initCallsOf (o : Option LoaderState) : Option Nat :=
  match o with
  | some s => some s.initServerCalls
  | none => none

/-- The i-th `loadModule` caller of a possibly-failed run. -/
def taskOf (o : Option LoaderState) (i : Nat) : Option TaskState :=
  match o with
  | some s => s.tasks.get? i
  | none => none

/-- Safe-mode flag of a possibly-failed run. -/
def safeOf (o : Option LoaderState) : Option Bool :=
  match o with
  | some s => some s.safeModeFallback
  | none => none

/-- Environment in which every module evaluates successfully. -/
def envAllOk : ModuleName → LoadOutcome := fun _ => Except.ok 7

/-- Environment in which the contacts module fails to evaluate. -/
def envDenied : ModuleName → LoadOutcome :=
  fun m =>
    match m with
    | ModuleName.contacts => Except.error "denied"
    | _ => Except.ok 7

/-- Timeout-first interleaving: the timer fires while the contacts import is
still in flight; the five abandoned eager imports then settle one after the
other and `attemptEagerLoading` runs to its success epilogue. -/
def trTimeoutRace : List Event :=
  [Event.timerFires,
   Event.moduleSettles ModuleName.contacts, Event.eagerResume,
   Event.moduleSettles ModuleName.notes, Event.eagerResume,
   Event.moduleSettles ModuleName.message, Event.eagerResume,
   Event.moduleSettles ModuleName.mail, Event.eagerResume,
   Event.moduleSettles ModuleName.reminders, Event.eagerResume]

/-- The timeout-first interleaving followed by one `loadModule('contacts')`
tool call. -/
def trLateResolve : List Event :=
  trTimeoutRace ++ [Event.taskBegin 0]

/-- Eager failure followed by two sequential `loadModule('contacts')` calls. -/
def trFailedRetry : List Event :=
  [Event.moduleSettles ModuleName.contacts, Event.eagerResume,
   Event.taskBegin 0, Event.taskResume 0,
   Event.taskBegin 1, Event.taskResume 1]

/-- Two concurrent `loadModule('notes')` calls issued before the first
settles, then the notes module settles and both callers resume. -/
def trConcurrent : List Event :=
  [Event.taskBegin 0, Event.taskBegin 1,
   Event.moduleSettles ModuleName.notes,
   Event.taskResume 0, Event.taskResume 1]

/-! ### Inductive invariant of the loader protocol -/

/-- Facts preserved by every scheduler step: the host module map never runs
an initializer twice (`reg_not`, `reg_started`); a settled map entry carries
the module's one evaluation outcome (`reg_val`); a cached instance comes from
a successful settled evaluation (`cache_ok`); a `loadModule` caller that
returned observed that one outcome, and one past its synchronous prefix has
an entry in the module map (`task_ok`); and `initServer()` has been called
once by the timer path if the timer fired plus once by `attemptEagerLoading`
if it finished (`count_ok`). -/
structure Inv (env : ModuleName → LoadOutcome) (s : LoaderState) : Prop where
  reg_not : ∀ m, s.registry m = RegState.notStarted → s.invocations m = 0
  reg_started : ∀ m, s.registry m ≠ RegState.notStarted → s.invocations m = 1
  reg_val : ∀ m r, s.registry m = RegState.settled r → r = env m
  cache_ok : ∀ m v, s.cache m = some v →
    env m = Except.ok v ∧ s.registry m = RegState.settled (Except.ok v)
  task_ok : ∀ t, t ∈ s.tasks →
    (∀ r, t.pc = TaskPC.returned r → r = env t.mod) ∧
    (t.pc ≠ TaskPC.start → s.registry t.mod ≠ RegState.notStarted)
  count_ok : s.initServerCalls =
    (if s.timer = TimerState.fired then 1 else 0) +
    (match s.eager with
     | EagerPC.awaiting _ => 0
     | _ => 1)

theorem upd_self {α : Type} (f : ModuleName → α) (m : ModuleName) (v : α) :
    upd f m v m = v := by simp [upd]

theorem upd_ne {α : Type} (f : ModuleName → α) (m : ModuleName) (v : α)
    (m1 : ModuleName) (h : m1 ≠ m) : upd f m v m1 = f m1 := by simp [upd, h]

theorem registryStart_ne_notStarted (s : LoaderState) (m : ModuleName) :
    (registryStart s m).registry m ≠ RegState.notStarted := by
  unfold registryStart
  by_cases h : s.registry m = RegState.notStarted
  · simp [h, upd_self]
  · simp [h]

theorem registryStart_mono (s : LoaderState) (m m1 : ModuleName)
    (h : s.registry m1 ≠ RegState.notStarted) :
    (registryStart s m).registry m1 ≠ RegState.notStarted := by
  unfold registryStart
  by_cases hreg : s.registry m = RegState.notStarted
  · simp only [if_pos hreg]
    by_cases hm : m1 = m
    · subst hm; simp [upd_self]
    · simpa [upd_ne _ _ _ _ hm] using h
  · simpa [hreg] using h

theorem registryStart_cache (s : LoaderState) (m : ModuleName) :
    (registryStart s m).cache = s.cache := by
  unfold registryStart; split <;> rfl

theorem registryStart_tasks (s : LoaderState) (m : ModuleName) :
    (registryStart s m).tasks = s.tasks := by
  unfold registryStart; split <;> rfl

theorem registryStart_timer (s : LoaderState) (m : ModuleName) :
    (registryStart s m).timer = s.timer := by
  unfold registryStart; split <;> rfl

theorem registryStart_eager (s : LoaderState) (m : ModuleName) :
    (registryStart s m).eager = s.eager := by
  unfold registryStart; split <;> rfl

theorem registryStart_calls (s : LoaderState) (m : ModuleName) :
    (registryStart s m).initServerCalls = s.initServerCalls := by
  unfold registryStart; split <;> rfl

theorem inv_registryStart {env : ModuleName → LoadOutcome} {s : LoaderState}
    (m : ModuleName) (h : Inv env s) : Inv env (registryStart s m) := by
  unfold registryStart
  by_cases hreg : s.registry m = RegState.notStarted
  · simp only [if_pos hreg]
    refine ⟨?_, ?_, ?_, ?_, ?_, ?_⟩
    · intro m1 h1
      dsimp only at h1 ⊢
      by_cases hm : m1 = m
      · subst hm; simp [upd] at h1
      · simp only [upd, if_neg hm] at h1 ⊢
        exact h.reg_not m1 h1
    · intro m1 h1
      dsimp only at h1 ⊢
      by_cases hm : m1 = m
      · subst hm
        simp [upd, h.reg_not m1 hreg]
      · simp only [upd, if_neg hm] at h1 ⊢
        exact h.reg_started m1 h1
    · intro m1 r h1
      dsimp only at h1
      by_cases hm : m1 = m
      · subst hm; simp [upd] at h1
      · simp only [upd, if_neg hm] at h1
        exact h.reg_val m1 r h1
    · intro m1 v h1
      dsimp only at h1 ⊢
      have h2 := h.cache_ok m1 v h1
      by_cases hm : m1 = m
      · subst hm; rw [h2.2] at hreg; exact absurd hreg (by simp)
      · simp only [upd, if_neg hm]
        exact h2
    · intro t ht
      dsimp only at ht ⊢
      refine ⟨(h.task_ok t ht).1, ?_⟩
      intro hpc
      have h2 := (h.task_ok t ht).2 hpc
      by_cases hm : t.mod = m
      · rw [hm]; simp [upd]
      · simp only [upd, if_neg hm]
        exact h2
    · exact h.count_ok
  · simp only [if_neg hreg]
    exact h

theorem clearTimer_fired_iff (s : LoaderState) :
    ((clearTimer s).timer = TimerState.fired) ↔ (s.timer = TimerState.fired) := by
  unfold clearTimer
  by_cases hv : s.loadingTimeoutVar
  · simp only [if_pos hv]
    by_cases hp : s.timer = TimerState.pending
    · simp [hp]
    · simp [hp]
  · simp [hv]

theorem clearTimer_fired_bit (s : LoaderState) :
    (if (clearTimer s).timer = TimerState.fired then 1 else 0) =
    (if s.timer = TimerState.fired then 1 else 0 : Nat) := by
  by_cases hf : s.timer = TimerState.fired
  · rw [if_pos ((clearTimer_fired_iff s).mpr hf), if_pos hf]
  · rw [if_neg (fun hcc => hf ((clearTimer_fired_iff s).mp hcc)), if_neg hf]

theorem clearTimer_registry (s : LoaderState) : (clearTimer s).registry = s.registry := by
  unfold clearTimer; split <;> rfl

theorem clearTimer_cache (s : LoaderState) : (clearTimer s).cache = s.cache := by
  unfold clearTimer; split <;> rfl

theorem clearTimer_invocations (s : LoaderState) :
    (clearTimer s).invocations = s.invocations := by
  unfold clearTimer; split <;> rfl

theorem clearTimer_tasks (s : LoaderState) : (clearTimer s).tasks = s.tasks := by
  unfold clearTimer; split <;> rfl

theorem clearTimer_calls (s : LoaderState) :
    (clearTimer s).initServerCalls = s.initServerCalls := by
  unfold clearTimer; split <;> rfl

theorem inv_init (env : ModuleName → LoadOutcome) (taskMods : List ModuleName) :
    Inv env (initState taskMods) := by
  refine ⟨?_, ?_, ?_, ?_, ?_, ?_⟩
  · intro m hm
    by_cases hc : m = ModuleName.contacts
    · subst hc; simp [initState, upd] at hm
    · simp [initState, upd, hc]
  · intro m hm
    by_cases hc : m = ModuleName.contacts
    · subst hc; simp [initState, upd]
    · exfalso; apply hm; simp [initState, upd, hc]
  · intro m r hm
    by_cases hc : m = ModuleName.contacts
    · subst hc; simp [initState, upd] at hm
    · simp [initState, upd, hc] at hm
  · intro m v hm
    exact absurd hm (by simp [initState])
  · intro t ht
    simp only [initState, List.mem_map] at ht
    obtain ⟨m, _, rfl⟩ := ht
    exact ⟨fun r hr => absurd hr (by simp), fun hpc => absurd rfl hpc⟩
  · simp [initState]

theorem inv_step {env : ModuleName → LoadOutcome} {e : Event} {s s' : LoaderState}
    (h : Inv env s) (hst : stepFn env e s = some s') : Inv env s' := by
  cases e with
  | timerFires =>
    cases ht : s.timer with
    | pending =>
      simp only [stepFn, ht, Option.some.injEq] at hst
      subst hst
      refine ⟨h.reg_not, h.reg_started, h.reg_val, ?_, ?_, ?_⟩
      · intro m v hm
        simp at hm
      · intro t htt
        exact h.task_ok t htt
      · dsimp only
        rw [h.count_ok, ht]
        cases s.eager <;> simp
    | fired => simp only [stepFn, ht] at hst; exact Option.noConfusion hst
    | cleared => simp only [stepFn, ht] at hst; exact Option.noConfusion hst
  | moduleSettles m =>
    cases hr : s.registry m with
    | notStarted => simp only [stepFn, hr] at hst; exact Option.noConfusion hst
    | inFlight =>
      simp only [stepFn, hr, Option.some.injEq] at hst
      subst hst
      refine ⟨?_, ?_, ?_, ?_, ?_, ?_⟩
      · intro m1 h1
        dsimp only at h1 ⊢
        by_cases hm : m1 = m
        · subst hm; simp [upd] at h1
        · simp only [upd, if_neg hm] at h1
          exact h.reg_not m1 h1
      · intro m1 h1
        dsimp only at h1 ⊢
        by_cases hm : m1 = m
        · subst hm; exact h.reg_started m1 (by simp [hr])
        · simp only [upd, if_neg hm] at h1
          exact h.reg_started m1 h1
      · intro m1 r h1
        dsimp only at h1
        by_cases hm : m1 = m
        · subst hm
          simp [upd] at h1
          exact h1.symm
        · simp only [upd, if_neg hm] at h1
          exact h.reg_val m1 r h1
      · intro m1 v h1
        dsimp only at h1 ⊢
        have h2 := h.cache_ok m1 v h1
        by_cases hm : m1 = m
        · subst hm; rw [h2.2] at hr; exact absurd hr (by simp)
        · refine ⟨h2.1, ?_⟩
          simp only [upd, if_neg hm]
          exact h2.2
      · intro t htt
        dsimp only at htt ⊢
        refine ⟨(h.task_ok t htt).1, ?_⟩
        intro hpc
        have h2 := (h.task_ok t htt).2 hpc
        by_cases hm : t.mod = m
        · rw [hm]; simp [upd]
        · simp only [upd, if_neg hm]
          exact h2
      · exact h.count_ok
    | settled r => simp only [stepFn, hr] at hst; exact Option.noConfusion hst
  | eagerResume =>
    cases he : s.eager with
    | doneOk => simp only [stepFn, he] at hst; exact Option.noConfusion hst
    | doneErr => simp only [stepFn, he] at hst; exact Option.noConfusion hst
    | awaiting i =>
      cases hm : eagerOrder.get? i with
      | none => simp only [stepFn, he, hm] at hst; exact Option.noConfusion hst
      | some m =>
        cases hr : s.registry m with
        | notStarted => simp only [stepFn, he, hm, hr] at hst; exact Option.noConfusion hst
        | inFlight => simp only [stepFn, he, hm, hr] at hst; exact Option.noConfusion hst
        | settled r =>
          have hck := h.count_ok
          rw [he] at hck
          simp at hck
          cases r with
          | ok v =>
            have hInv1 : Inv env { s with cache := upd s.cache m (some v) } := by
              refine ⟨h.reg_not, h.reg_started, h.reg_val, ?_, h.task_ok, h.count_ok⟩
              intro m1 v1 hc
              dsimp only at hc ⊢
              by_cases hmm : m1 = m
              · subst hmm
                simp [upd] at hc
                subst hc
                exact ⟨(h.reg_val m1 _ hr).symm, hr⟩
              · simp only [upd, if_neg hmm] at hc
                exact h.cache_ok m1 v1 hc
            cases hn : eagerOrder.get? (i + 1) with
            | some next =>
              simp only [stepFn, he, hm, hr, hn, Option.some.injEq] at hst
              subst hst
              rw [← he]
              have hInv2 := inv_registryStart next hInv1
              refine ⟨hInv2.reg_not, hInv2.reg_started, hInv2.reg_val,
                hInv2.cache_ok, hInv2.task_ok, ?_⟩
              dsimp only
              rw [registryStart_calls, registryStart_timer]
              dsimp only
              omega
            | none =>
              simp only [stepFn, he, hm, hr, hn, Option.some.injEq] at hst
              subst hst
              refine ⟨?_, ?_, ?_, ?_, ?_, ?_⟩
              · intro m1 h1
                dsimp only at h1 ⊢
                rw [clearTimer_registry] at h1
                rw [clearTimer_invocations]
                exact hInv1.reg_not m1 h1
              · intro m1 h1
                dsimp only at h1 ⊢
                rw [clearTimer_registry] at h1
                rw [clearTimer_invocations]
                exact hInv1.reg_started m1 h1
              · intro m1 r h1
                dsimp only at h1
                rw [clearTimer_registry] at h1
                exact hInv1.reg_val m1 r h1
              · intro m1 v1 h1
                dsimp only at h1 ⊢
                rw [clearTimer_cache] at h1
                rw [clearTimer_registry]
                exact hInv1.cache_ok m1 v1 h1
              · intro t htt
                dsimp only at htt ⊢
                rw [clearTimer_tasks] at htt
                rw [clearTimer_registry]
                exact hInv1.task_ok t htt
              · dsimp only
                rw [clearTimer_fired_bit]
                dsimp only
                omega
          | error e1 =>
            simp only [stepFn, he, hm, hr, Option.some.injEq] at hst
            subst hst
            refine ⟨?_, ?_, ?_, ?_, ?_, ?_⟩
            · intro m1 h1
              dsimp only at h1 ⊢
              rw [clearTimer_registry] at h1
              rw [clearTimer_invocations]
              exact h.reg_not m1 h1
            · intro m1 h1
              dsimp only at h1 ⊢
              rw [clearTimer_registry] at h1
              rw [clearTimer_invocations]
              exact h.reg_started m1 h1
            · intro m1 r h1
              dsimp only at h1
              rw [clearTimer_registry] at h1
              exact h.reg_val m1 r h1
            · intro m1 v1 h1
              simp at h1
            · intro t htt
              dsimp only at htt ⊢
              rw [clearTimer_tasks] at htt
              rw [clearTimer_registry]
              exact h.task_ok t htt
            · dsimp only
              rw [clearTimer_fired_bit]
              omega
  | taskBegin i =>
    cases hti : s.tasks.get? i with
    | none => simp only [stepFn, hti] at hst; exact Option.noConfusion hst
    | some t =>
      cases htp : t.pc with
      | awaitingImport => simp only [stepFn, hti, htp] at hst; exact Option.noConfusion hst
      | returned r => simp only [stepFn, hti, htp] at hst; exact Option.noConfusion hst
      | start =>
        cases hc : s.cache t.mod with
        | some v =>
          simp only [stepFn, hti, htp, hc, Option.some.injEq] at hst
          subst hst
          refine ⟨h.reg_not, h.reg_started, h.reg_val, h.cache_ok, ?_, h.count_ok⟩
          intro t1 ht1
          dsimp only at ht1 ⊢
          rcases List.mem_or_eq_of_mem_set ht1 with hmem | rfl
          · exact h.task_ok t1 hmem
          · refine ⟨?_, ?_⟩
            · intro r hrr
              simp only [TaskPC.returned.injEq] at hrr
              subst hrr
              exact (h.cache_ok t.mod v hc).1.symm
            · intro _
              rw [(h.cache_ok t.mod v hc).2]
              simp
        | none =>
          simp only [stepFn, hti, htp, hc, Option.some.injEq] at hst
          subst hst
          have hInv2 := inv_registryStart t.mod h
          refine ⟨hInv2.reg_not, hInv2.reg_started, hInv2.reg_val,
            hInv2.cache_ok, ?_, ?_⟩
          · intro t1 ht1
            dsimp only at ht1 ⊢
            rcases List.mem_or_eq_of_mem_set ht1 with hmem | rfl
            · exact hInv2.task_ok t1 (by rw [registryStart_tasks]; exact hmem)
            · refine ⟨fun r hrr => absurd hrr (by simp), fun _ => ?_⟩
              exact registryStart_ne_notStarted s t.mod
          · dsimp only
            rw [registryStart_calls, registryStart_timer, registryStart_eager]
            exact h.count_ok
  | taskResume i =>
    cases hti : s.tasks.get? i with
    | none => simp only [stepFn, hti] at hst; exact Option.noConfusion hst
    | some t =>
      cases htp : t.pc with
      | start => simp only [stepFn, hti, htp] at hst; exact Option.noConfusion hst
      | returned r => simp only [stepFn, hti, htp] at hst; exact Option.noConfusion hst
      | awaitingImport =>
        cases hr : s.registry t.mod with
        | notStarted => simp only [stepFn, hti, htp, hr] at hst; exact Option.noConfusion hst
        | inFlight => simp only [stepFn, hti, htp, hr] at hst; exact Option.noConfusion hst
        | settled r =>
          cases r with
          | ok v =>
            simp only [stepFn, hti, htp, hr, Option.some.injEq] at hst
            subst hst
            refine ⟨h.reg_not, h.reg_started, h.reg_val, ?_, ?_, h.count_ok⟩
            · intro m1 v1 h1
              dsimp only at h1 ⊢
              by_cases hmm : m1 = t.mod
              · subst hmm
                simp [upd] at h1
                subst h1
                exact ⟨(h.reg_val _ _ hr).symm, hr⟩
              · simp only [upd, if_neg hmm] at h1
                exact h.cache_ok m1 v1 h1
            · intro t1 ht1
              dsimp only at ht1 ⊢
              rcases List.mem_or_eq_of_mem_set ht1 with hmem | rfl
              · exact h.task_ok t1 hmem
              · refine ⟨?_, ?_⟩
                · intro r hrr
                  simp only [TaskPC.returned.injEq] at hrr
                  subst hrr
                  show Except.ok v = env t.mod
                  exact h.reg_val t.mod _ hr
                · intro _
                  rw [hr]
                  simp
          | error e1 =>
            simp only [stepFn, hti, htp, hr, Option.some.injEq] at hst
            subst hst
            refine ⟨h.reg_not, h.reg_started, h.reg_val, h.cache_ok, ?_, h.count_ok⟩
            intro t1 ht1
            dsimp only at ht1 ⊢
            rcases List.mem_or_eq_of_mem_set ht1 with hmem | rfl
            · exact h.task_ok t1 hmem
            · refine ⟨?_, ?_⟩
              · intro r hrr
                simp only [TaskPC.returned.injEq] at hrr
                subst hrr
                show Except.error e1 = env t.mod
                exact h.reg_val t.mod _ hr
              · intro _
                rw [hr]
                simp

theorem runEvents_inv {env : ModuleName → LoadOutcome} :
    ∀ (tr : List Event) {s s' : LoaderState}, Inv env s →
      runEvents env tr s = some s' → Inv env s'
  | [], s, s', h, hr => by
    simp only [runEvents, Option.some.injEq] at hr
    exact hr ▸ h
  | e :: es, s, s', h, hr => by
    simp only [runEvents] at hr
    cases hst : stepFn env e s with
    | none => rw [hst] at hr; exact Option.noConfusion hr
    | some s1 =>
      rw [hst] at hr
      exact runEvents_inv es (inv_step h hst) hr

/-- Every state a run reaches from the startup state satisfies the
invariant. -/
theorem reached_inv {env : ModuleName → LoadOutcome} {taskMods : List ModuleName}
    {tr : List Event} {s : LoaderState}
    (hr : runEvents env tr (initState taskMods) = some s) : Inv env s :=
  runEvents_inv tr (inv_init env taskMods) hr

/-! ## Eager-only bootstrap variant (first document of src/index.ts)

The first document's `loadModules` (src/index.ts lines 29-54) awaits the
eight module imports in order; its catch block logs a fatal error and calls
`process.exit(1)`.  Its tool-call handler variant is not needed here; the
safe-mode variant's outer catch (lines 2077-2087) is modelled by
`callToolCatch`. -/

/-- The eight backends of the eager-only variant. -/
inductive ModuleV1
  | contacts
  | notes
  | message
  | mail
  | reminders
  | webSearch
  | calendar
  | maps
deriving DecidableEq

/-- Import order of `loadModules`. -/
def moduleOrderV1 : List ModuleV1 :=
  [ModuleV1.contacts, ModuleV1.notes, ModuleV1.message, ModuleV1.mail,
   ModuleV1.reminders, ModuleV1.webSearch, ModuleV1.calendar, ModuleV1.maps]

/-- Outcome of running a piece of the program: it completed normally with a
value, or it called `process.exit` with the given code. -/
inductive ProcOutcome (α : Type)
  | completed (a : α)
  | exited (code : Nat)
deriving DecidableEq

/-- The body of `loadModules`: await each import in order; the catch block
around the whole sequence turns the first failure into `process.exit(1)`. -/
def loadModulesGo (env : ModuleV1 → Except String Inst) :
    List ModuleV1 → List Inst → ProcOutcome (List Inst)
  | [], acc => ProcOutcome.completed acc.reverse
  | m :: rest, acc =>
    match env m with
    | Except.ok v => loadModulesGo env rest (v :: acc)
    | Except.error _ => ProcOutcome.exited 1

/-- `loadModules` of the eager-only variant (src/index.ts lines 29-54):
eagerly import every backend module; on any failure the process exits with
code 1. -/
def loadModules (env : ModuleV1 → Except String Inst) : ProcOutcome (List Inst) :=
  loadModulesGo env moduleOrderV1 []

/-- A tool-call response as the dispatcher returns it. -/
structure ToolResponse where
  text : String
  isError : Bool
deriving DecidableEq

/-- The outer catch of the safe-mode variant's tool-call handler
(src/index.ts lines 2077-2087): a thrown error becomes a response with
`isError` true and the error message prefixed by Error; it never exits the
process. -/
def callToolCatch (res : Except String ToolResponse) : ProcOutcome ToolResponse :=
  match res with
  | Except.ok r => ProcOutcome.completed r
  | Except.error e =>
    ProcOutcome.completed { text := "Error: " ++ e, isError := true }

/-- Import environment in which the contacts module import throws. -/
def envBootFail : ModuleV1 → Except String Inst :=
  fun m =>
    match m with
    | ModuleV1.contacts => Except.error "Cannot find module"
    | _ => Except.ok 0

/-! ## Decoder lemmas -/

theorem takeWhile_append_colon (k v : List Char) (h : ':' ∉ k) :
    (k ++ ':' :: v).takeWhile (fun c => decide (c ≠ ':')) = k := by
  induction k with
  | nil => simp
  | cons c k ih =>
    simp only [List.mem_cons, not_or] at h
    have hc : c ≠ ':' := fun hh => h.1 hh.symm
    rw [List.cons_append, List.takeWhile_cons, if_pos (by simp [hc]), ih h.2]

theorem dropWhile_append_colon (k v : List Char) (h : ':' ∉ k) :
    (k ++ ':' :: v).dropWhile (fun c => decide (c ≠ ':')) = ':' :: v := by
  induction k with
  | nil => simp
  | cons c k ih =>
    simp only [List.mem_cons, not_or] at h
    have hc : c ≠ ':' := fun hh => h.1 hh.symm
    rw [List.cons_append, List.dropWhile_cons, if_pos (by simp [hc]), ih h.2]

/-- A fragment containing a colon splits at its first colon; both sides are
trimmed and later colons stay inside the value. -/
theorem parseProp_split (k v : List Char) (h : ':' ∉ k) :
    parseProp (k ++ ':' :: v) = some ((trimL k).asString, (trimL v).asString) := by
  unfold parseProp
  rw [dropWhile_append_colon k v h, takeWhile_append_colon k v h]
  rfl

/-- A fragment with no colon is discarded. -/
theorem parseProp_no_colon (p : List Char) (h : ':' ∉ p) : parseProp p = none := by
  unfold parseProp
  have hd : p.dropWhile (fun c => decide (c ≠ ':')) = [] := by
    rw [List.dropWhile_eq_nil_iff]
    intro c hc
    simp only [decide_eq_true_eq]
    exact fun hcc => h (hcc ▸ hc)
  rw [hd]

theorem getField_objSet_self (r : List (String × String)) (k v : String) :
    getField (objSet r k v) k = some v := by
  induction r with
  | nil => simp [objSet, getField]
  | cons p t ih =>
    obtain ⟨k1, v1⟩ := p
    by_cases hk : k1 = k
    · subst hk; simp [objSet, getField]
    · simp [objSet, getField, hk, ih]

theorem getField_objSet_other (r : List (String × String)) (k v k1 : String)
    (h : k1 ≠ k) : getField (objSet r k v) k1 = getField r k1 := by
  have hnk : k ≠ k1 := fun hh => h hh.symm
  induction r with
  | nil => simp [objSet, getField, hnk]
  | cons p t ih =>
    obtain ⟨k2, v2⟩ := p
    by_cases hk : k2 = k
    · subst hk
      simp [objSet, getField, hnk]
    · simp only [objSet, if_neg hk]
      by_cases hk2 : k2 = k1
      · subst hk2; simp [getField]
      · simp [getField, hk2, ih]

/-- A later fragment carrying key `k` overwrites whatever earlier fragments
assigned to `k`. -/
theorem buildRecord_append_last (props : List (List Char)) (frag : List Char)
    (k v : String) (h : parseProp frag = some (k, v)) :
    getField (buildRecord (props ++ [frag])) k = some v := by
  unfold buildRecord
  rw [List.foldl_append]
  simp [h, getField_objSet_self]

/-- A colon-free fragment contributes nothing to the record. -/
theorem buildRecord_append_skip (props : List (List Char)) (frag : List Char)
    (h : parseProp frag = none) :
    buildRecord (props ++ [frag]) = buildRecord props := by
  unfold buildRecord
  rw [List.foldl_append]
  simp [h]

theorem decodeEmails_foldl (a n : String) (acc : List Email) (l : List (List Char)) :
    l.foldl (fun acc2 inner =>
      if identifying (recordOfCandidate inner) then
        acc2 ++ [emailOf a n (recordOfCandidate inner)]
      else acc2) acc =
    acc ++ ((l.map recordOfCandidate).filter identifying).map (emailOf a n) := by
  induction l generalizing acc with
  | nil => simp
  | cons inner rest ih =>
    by_cases hid : identifying (recordOfCandidate inner)
    · simp [hid, ih]
    · simp [hid, ih]

/-- The fused push-loop of the source equals filtering the assembled records
by the identifying-field check and mapping the email construction over the
survivors. -/
theorem decodeEmails_eq (a n raw : String) :
    decodeEmails a n raw =
      ((decodeRecords raw).filter identifying).map (emailOf a n) := by
  unfold decodeEmails decodeRecords
  rw [decodeEmails_foldl]
  simp

theorem truthy_iff (o : Option String) :
    truthy o = true ↔ ∃ v, o = some v ∧ v ≠ "" := by
  cases o with
  | none => simp [truthy]
  | some s => simp [truthy]

theorem orDefault_ne_empty (o : Option String) (d : String) (h : d ≠ "") :
    orDefault o d ≠ "" := by
  cases o with
  | none => exact h
  | some s =>
    by_cases hs : s = ""
    · subst hs; simpa [orDefault] using h
    · have hb : (s == "") = false := by simp [hs]
      simpa [orDefault, hb] using hs

theorem orDefault_of_not_truthy (o : Option String) (d : String)
    (h : truthy o = false) : orDefault o d = d := by
  cases o with
  | none => rfl
  | some s =>
    simp only [truthy, Bool.not_eq_false'] at h
    simp [orDefault, h]

/-! ## Claim theorems -/

/-- C1 (counterexample): in the concrete timeout-first interleaving, the
instance produced by the abandoned contacts eager load after the Safe-mode
transition IS stored in the process-wide module cache, and the subsequent
`loadModule('contacts')` call returns exactly that instance while the
initializer invocation count stays at 1 — no fresh lazy load happens.  This
refutes both the discarded-instance part and the fresh-lazy-load part of the
claim. -/
theorem timeout_abandoned_load_cached_cex :
    cacheSnap (runEvents envAllOk trLateResolve (initState [ModuleName.contacts]))
      ModuleName.contacts = some (some 7) ∧
    taskOf (runEvents envAllOk trLateResolve (initState [ModuleName.contacts])) 0 =
      some ⟨ModuleName.contacts, TaskPC.returned (Except.ok 7)⟩ ∧
    invocOf (runEvents envAllOk trLateResolve (initState [ModuleName.contacts]))
      ModuleName.contacts = 1 := by decide

/-- C1 (amended): when the 5-second timer fires before the eager loads have
settled, the loader does transition to Safe mode, clears the module cache at
that moment and signals ready; but a module instance produced by a
still-in-flight eager load after the transition is stored back into the
process-wide cache, and a later resolve for that backend returns the cached
eager-produced instance without triggering a fresh lazy load. -/
theorem timeout_transition_clears_then_recaches :
    (∀ env s, match stepFn env Event.timerFires s with
      | some s1 =>
        s1.safeModeFallback = true ∧ s1.useEagerLoading = false ∧
        (∀ m, s1.cache m = none) ∧ s1.initServerCalls = s.initServerCalls + 1
      | none => True) ∧
    safeOf (runEvents envAllOk trLateResolve (initState [ModuleName.contacts])) =
      some true ∧
    cacheSnap (runEvents envAllOk trLateResolve (initState [ModuleName.contacts]))
      ModuleName.contacts = some (some 7) ∧
    taskOf (runEvents envAllOk trLateResolve (initState [ModuleName.contacts])) 0 =
      some ⟨ModuleName.contacts, TaskPC.returned (Except.ok 7)⟩ ∧
    invocOf (runEvents envAllOk trLateResolve (initState [ModuleName.contacts]))
      ModuleName.contacts = 1 := by
  refine ⟨?_, by decide, by decide, by decide, by decide⟩
  intro env s
  cases ht : s.timer with
  | pending => simp [stepFn, ht]
  | fired => simp [stepFn, ht]
  | cleared => simp [stepFn, ht]

/-- C2 (code bug): in the timeout-first interleaving whose abandoned eager
load later succeeds, `initServer()` runs twice — once from the timer callback
and once from the eager-load success epilogue, because the timer callback
never nulls `loadingTimeout` and `attemptEagerLoading` calls `initServer()`
unconditionally after its imports settle.  The claim (ready is signaled at
most once) states the clear intent; the code violates it on this
interleaving. -/
theorem initServer_called_twice_on_timeout :
    initCallsOf (runEvents envAllOk trTimeoutRace (initState [])) = some 2 := by decide

/-- C3 (counterexample): in the eager-only bootstrap variant, a failing
backend module import makes `loadModules` call `process.exit(1)` — a
CORE-originated backend module-load failure that terminates the process
rather than being surfaced as a tool-call-scoped error. -/
theorem eager_bootstrap_failure_exits_cex :
    loadModules envBootFail = ProcOutcome.exited 1 := by decide

/-- C3 (amended): errors reaching the safe-mode variant's tool-call catch are
surfaced as responses with isError true (never an exit), and a successful
handler result passes through unchanged; but in the eager-only bootstrap
variant a backend module-load failure terminates the process with exit
code 1. -/
theorem core_failures_tool_scoped_except_bootstrap :
    (∀ e, callToolCatch (Except.error e) =
      ProcOutcome.completed { text := "Error: " ++ e, isError := true }) ∧
    (∀ r, callToolCatch (Except.ok r) = ProcOutcome.completed r) ∧
    loadModules envBootFail = ProcOutcome.exited 1 :=
  ⟨fun _ => rfl, fun _ => rfl, by decide⟩

/-- C4: single-flight semantics — in every interleaving of the startup tasks
and any number of `loadModule` callers, each backend's initializer runs at
most once; a caller past its synchronous prefix sees the invocation count
exactly 1 for its backend, and every caller that returned observed the single
evaluation outcome `env` of its backend (all concurrent callers share the one
in-flight load through the host module map). -/
theorem loadModule_single_flight (env : ModuleName → LoadOutcome)
    (taskMods : List ModuleName) (tr : List Event) (b : ModuleName) :
    invocOf (runEvents env tr (initState taskMods)) b ≤ 1 ∧
    (∀ i t, taskOf (runEvents env tr (initState taskMods)) i = some t →
      (t.pc ≠ TaskPC.start → invocOf (runEvents env tr (initState taskMods)) t.mod = 1) ∧
      (∀ r, t.pc = TaskPC.returned r → r = env t.mod)) := by
  cases hrun : runEvents env tr (initState taskMods) with
  | none =>
    refine ⟨by simp [invocOf], ?_⟩
    intro i t h
    simp [taskOf] at h
  | some s =>
    have hinv := reached_inv hrun
    constructor
    · show s.invocations b ≤ 1
      by_cases hreg : s.registry b = RegState.notStarted
      · rw [hinv.reg_not b hreg]; omega
      · rw [hinv.reg_started b hreg]
    · intro i t h
      have hmem := List.get?_mem (show s.tasks.get? i = some t from h)
      refine ⟨?_, (hinv.task_ok t hmem).1⟩
      intro hpc
      show s.invocations t.mod = 1
      exact hinv.reg_started t.mod ((hinv.task_ok t hmem).2 hpc)

/-- C4 witness: two concurrent `loadModule('notes')` callers in a concrete
interleaving; the theorem yields the single invocation and the shared
outcome. -/
theorem loadModule_single_flight_witness :
    invocOf (runEvents envAllOk trConcurrent
      (initState [ModuleName.notes, ModuleName.notes])) ModuleName.notes = 1 ∧
    (Except.ok 7 : LoadOutcome) = envAllOk ModuleName.notes :=
  ⟨((loadModule_single_flight envAllOk [ModuleName.notes, ModuleName.notes]
      trConcurrent ModuleName.notes).2 0
      ⟨ModuleName.notes, TaskPC.returned (Except.ok 7)⟩ (by decide)).1 (by decide),
   ((loadModule_single_flight envAllOk [ModuleName.notes, ModuleName.notes]
      trConcurrent ModuleName.notes).2 0
      ⟨ModuleName.notes, TaskPC.returned (Except.ok 7)⟩ (by decide)).2
      (Except.ok 7) rfl⟩

/-- C5 (counterexample): the contacts import fails; the first `loadModule`
call propagates the failure with the module cache left empty, and the
immediately following second call fails with the same cached evaluation error
while the initializer invocation count remains 1 — the subsequent resolve
does not re-invoke the initializer, refuting the retry part of the claim. -/
theorem failed_load_not_retried_cex :
    taskOf (runEvents envDenied trFailedRetry
        (initState [ModuleName.contacts, ModuleName.contacts])) 0 =
      some ⟨ModuleName.contacts, TaskPC.returned (Except.error "denied")⟩ ∧
    taskOf (runEvents envDenied trFailedRetry
        (initState [ModuleName.contacts, ModuleName.contacts])) 1 =
      some ⟨ModuleName.contacts, TaskPC.returned (Except.error "denied")⟩ ∧
    invocOf (runEvents envDenied trFailedRetry
        (initState [ModuleName.contacts, ModuleName.contacts]))
      ModuleName.contacts = 1 ∧
    cacheSnap (runEvents envDenied trFailedRetry
        (initState [ModuleName.contacts, ModuleName.contacts]))
      ModuleName.contacts = some none := by decide

/-- C5 (amended): a failed resolve propagates the module's evaluation error
to its caller and the module-cache variable for that backend stays null; but
the host module map caches the failed evaluation, so a subsequent resolve —
though it calls `import` again — does not re-invoke the initializer (at most
one invocation ever) and observes the same cached error. -/
theorem failed_load_cached_error (env : ModuleName → LoadOutcome)
    (taskMods : List ModuleName) (tr : List Event) (b : ModuleName) (e : String)
    (henv : env b = Except.error e) :
    (match runEvents env tr (initState taskMods) with
     | some s =>
       s.cache b = none ∧ s.invocations b ≤ 1 ∧
       (∀ i t, s.tasks.get? i = some t → t.mod = b →
         ∀ r, t.pc = TaskPC.returned r → r = Except.error e)
     | none => True) := by
  cases hrun : runEvents env tr (initState taskMods) with
  | none => trivial
  | some s =>
    have hinv := reached_inv hrun
    refine ⟨?_, ?_, ?_⟩
    · cases hcc : s.cache b with
      | none => rfl
      | some v =>
        have hok := (hinv.cache_ok b v hcc).1
        rw [henv] at hok
        exact absurd hok (by simp)
    · by_cases hreg : s.registry b = RegState.notStarted
      · rw [hinv.reg_not b hreg]; omega
      · rw [hinv.reg_started b hreg]
    · intro i t h hmod r hret
      have hmem := List.get?_mem h
      have hr := (hinv.task_ok t hmem).1 r hret
      rw [hr, hmod, henv]

/-- C5 witness: the amended theorem applied to the concrete failing
environment and the two-caller interleaving. -/
theorem failed_load_cached_error_witness :
    (match runEvents envDenied trFailedRetry
        (initState [ModuleName.contacts, ModuleName.contacts]) with
     | some s =>
       s.cache ModuleName.contacts = none ∧
       s.invocations ModuleName.contacts ≤ 1 ∧
       (∀ i t, s.tasks.get? i = some t → t.mod = ModuleName.contacts →
         ∀ r, t.pc = TaskPC.returned r → r = Except.error "denied")
     | none => True) :=
  failed_load_cached_error envDenied [ModuleName.contacts, ModuleName.contacts]
    trFailedRetry ModuleName.contacts "denied" rfl

/-- C6: on the exact input with the two well-formed pseudo-records the decode
yields exactly two records in input order, the first mapping subject to Hello
and sender to the first address, the second mapping subject to World and
sender to the second address. -/
theorem decode_round_trip_two_records :
    decodeRecords
        "\x7bsubject:Hello, sender:a@b.com\x7d\x7bsubject:World, sender:c@d.com\x7d" =
      [[("subject", "Hello"), ("sender", "a@b.com")],
       [("subject", "World"), ("sender", "c@d.com")]] := by decide

/-- C7: the decode is a total function; an input in which the scan finds no
brace-delimited candidate decodes to the empty sequence (for the raw records
and for the emitted emails alike), and the input with one well-formed record
and one truncated fragment yields exactly one record with subject Good — the
truncated fragment is skipped without aborting the rest. -/
theorem decode_total_and_tolerant :
    (∀ raw : String, extractCandidates raw.toList = [] → decodeRecords raw = []) ∧
    (∀ a n raw : String, extractCandidates raw.toList = [] → decodeEmails a n raw = []) ∧
    decodeRecords "\x7bsubject:Good\x7d\x7bbroken" = [[("subject", "Good")]] ∧
    decodeEmails "A" "N" "\x7bsubject:Good\x7d\x7bbroken" =
      [⟨"Good", "Unknown sender", "N", "[Content not available]", false,
        "A - Unknown"⟩] := by
  refine ⟨?_, ?_, by decide, by decide⟩
  · intro raw hcand
    unfold decodeRecords
    rw [hcand]
    rfl
  · intro a n raw hcand
    unfold decodeEmails
    rw [hcand]
    rfl

/-- C7 witness: the no-candidate clause applied to the empty input. -/
theorem decode_total_and_tolerant_witness : decodeRecords "" = [] :=
  decode_total_and_tolerant.1 "" rfl

/-- C8: every fragment containing a colon splits at its first colon into a
trimmed key and a trimmed value (later colons stay inside the value);
colon-free fragments are discarded; and when a later fragment of the same
candidate carries an already-bound key, its value overwrites the earlier
one in the assembled record. -/
theorem fragment_split_first_colon_last_wins :
    (∀ k v : List Char, ':' ∉ k →
      parseProp (k ++ ':' :: v) = some ((trimL k).asString, (trimL v).asString)) ∧
    (∀ p : List Char, ':' ∉ p → parseProp p = none) ∧
    (∀ props frag k v, parseProp frag = some (k, v) →
      getField (buildRecord (props ++ [frag])) k = some v) ∧
    (∀ props frag, parseProp frag = none →
      buildRecord (props ++ [frag]) = buildRecord props) :=
  ⟨parseProp_split, parseProp_no_colon, buildRecord_append_last,
   buildRecord_append_skip⟩

/-- C8 witness: the split and the last-write-wins clause at concrete
fragments. -/
theorem fragment_split_first_colon_last_wins_witness :
    parseProp ("key".toList ++ ':' :: " a:b".toList) =
      some ((trimL "key".toList).asString, (trimL " a:b".toList).asString) ∧
    getField (buildRecord (["a:1".toList] ++ ["a:2".toList])) "a" = some "2" :=
  ⟨fragment_split_first_colon_last_wins.1 "key".toList " a:b".toList (by decide),
   fragment_split_first_colon_last_wins.2.2.1 ["a:1".toList] "a:2".toList "a" "2"
     (by decide)⟩

/-- C9 (counterexample): the candidate whose only fragment is the key subject
with an empty value assembles to a record that does contain the identifying
field subject, yet the decoder excludes it (JS truthiness treats the empty
string as falsy) — refuting included-iff-contains-an-identifying-field as
stated. -/
theorem empty_subject_excluded_cex :
    decodeRecords "\x7bsubject:\x7d" = [[("subject", "")]] ∧
    getField [("subject", "")] "subject" = some "" ∧
    decodeEmails "A" "N" "\x7bsubject:\x7d" = [] := by decide

/-- C9 (amended): the emitted sequence is exactly the assembled records that
carry subject or sender with a NON-EMPTY value, mapped through the email
construction, in order; a candidate with neither such field — like the
foo-colon-bar candidate — is excluded. -/
theorem identifying_filter_nonempty :
    (∀ a n raw, decodeEmails a n raw =
      ((decodeRecords raw).filter identifying).map (emailOf a n)) ∧
    (∀ r, identifying r = true ↔
      ((∃ v, getField r "subject" = some v ∧ v ≠ "") ∨
       (∃ v, getField r "sender" = some v ∧ v ≠ ""))) ∧
    decodeEmails "A" "N" "\x7bfoo:bar\x7d" = [] := by
  refine ⟨decodeEmails_eq, ?_, by decide⟩
  intro r
  simp [identifying, Bool.or_eq_true, truthy_iff]

/-- C9 witness: a record with a non-empty subject passes the
identifying-field check. -/
theorem identifying_filter_nonempty_witness :
    identifying [("subject", "Hi")] = true :=
  (identifying_filter_nonempty.2.1 [("subject", "Hi")]).mpr
    (Or.inl ⟨"Hi", rfl, by decide⟩)

/-- C10: every email emitted by the account-scoped mail parse has non-empty
subject, sender, dateSent and content and isRead false (given the
current-date string is non-empty), and each default — No subject, Unknown
sender, the current date string, Content-not-available — substitutes exactly
when the decoded candidate lacks the corresponding field or carries it with
an empty value. -/
theorem emitted_email_fields_nonempty_defaults :
    (∀ a n raw e, n ≠ "" → e ∈ decodeEmails a n raw →
      e.subject ≠ "" ∧ e.sender ≠ "" ∧ e.dateSent ≠ "" ∧ e.content ≠ "" ∧
      e.isRead = false) ∧
    (∀ a n r, truthy (getField r "subject") = false →
      (emailOf a n r).subject = "No subject") ∧
    (∀ a n r, truthy (getField r "sender") = false →
      (emailOf a n r).sender = "Unknown sender") ∧
    (∀ a n r, truthy (getField r "date") = false →
      (emailOf a n r).dateSent = n) ∧
    (∀ a n r, truthy (getField r "content") = false →
      (emailOf a n r).content = "[Content not available]") := by
  refine ⟨?_, ?_, ?_, ?_, ?_⟩
  · intro a n raw e hn he
    rw [decodeEmails_eq] at he
    simp only [List.mem_map] at he
    obtain ⟨r, _, rfl⟩ := he
    exact ⟨orDefault_ne_empty _ _ (by decide), orDefault_ne_empty _ _ (by decide),
      orDefault_ne_empty _ _ hn, orDefault_ne_empty _ _ (by decide), rfl⟩
  · intro a n r h
    exact orDefault_of_not_truthy _ _ h
  · intro a n r h
    exact orDefault_of_not_truthy _ _ h
  · intro a n r h
    exact orDefault_of_not_truthy _ _ h
  · intro a n r h
    exact orDefault_of_not_truthy _ _ h

/-- The email emitted for the subject-only candidate, used by the C10
witness. -/
def witEmail : Email :=
  ⟨"Hi", "Unknown sender", "N", "[Content not available]", false, "A - Unknown"⟩

/-- C10 witness: the non-emptiness clause applied to a concrete parse. -/
theorem emitted_email_fields_nonempty_defaults_witness :
    witEmail.subject ≠ "" ∧ witEmail.sender ≠ "" ∧ witEmail.dateSent ≠ "" ∧
    witEmail.content ≠ "" ∧ witEmail.isRead = false :=
  emitted_email_fields_nonempty_defaults.1 "A" "N" "\x7bsubject:Hi\x7d" witEmail
    (by decide) (by decide)

end AppleMcp
